import Mathlib

/-!
Verification of the Russian Fish card-game rule engine.

The definitions below are a shallow embedding of the game logic found in
`src/types.ts`, `src/utils.ts` and `src/App.tsx`.  Randomness
(`Math.random()` in the shuffle) is modelled by an explicit `rand : Nat → Nat`
parameter: the value used at loop index `i` is `rand i % (i + 1)`, matching
`Math.floor(Math.random() * (i + 1)) ∈ [0, i]`.  Presentation-only state
(animation flags, tutorial/menu flags, sounds, announcements, refs) is omitted;
everything the game rules read or write is kept.
-/

namespace RussianFish

/-- `Suit` from `src/types.ts`. -/
inductive Suit where
  | hearts | diamonds | clubs | spades
deriving DecidableEq, Repr

/-- `Rank` from `src/types.ts`. -/
inductive Rank where
  | two | three | four | five | six | seven | eight | nine | ten
  | jack | queen | king | ace
deriving DecidableEq, Repr

/-- `CardModel` from `src/types.ts`. -/
structure CardModel where
  id : String
  suit : Suit
  rank : Rank
deriving DecidableEq, Repr

/-- `PlayerID` from `src/types.ts`. -/
inductive PlayerID where
  | south | west | north | east
deriving DecidableEq, Repr

/-- `SUITS` from `src/utils.ts`. -/
def SUITS : List Suit := [Suit.hearts, Suit.diamonds, Suit.clubs, Suit.spades]

/-- `RANKS` from `src/utils.ts`. -/
def RANKS : List Rank :=
  [Rank.two, Rank.three, Rank.four, Rank.five, Rank.six, Rank.seven, Rank.eight,
   Rank.nine, Rank.ten, Rank.jack, Rank.queen, Rank.king, Rank.ace]

/-- `createDeck` from `src/utils.ts`: nested suit-major/rank-minor loops with a
running `idCounter` producing ids `card-0` .. `card-51`. -/
def createDeck : List CardModel :=
  ((SUITS.map (fun s => RANKS.map (fun r => (s, r)))).flatten.enum).map
    (fun p => { id := "card-" ++ toString p.1, suit := p.2.1, rank := p.2.2 })

/-- One swap `[arr[i], arr[j]] = [arr[j], arr[i]]` of `shuffleDeck`
(`src/utils.ts`); out-of-range indices leave the list unchanged (never hit by
the loop, which keeps both indices in bounds). -/
def listSwap {α : Type} (l : List α) (i j : Nat) : List α :=
  match l.get? i, l.get? j with
  | some a, some b => (l.set i b).set j a
  | _, _ => l

/-- The Fisher–Yates loop of `shuffleDeck` (`src/utils.ts`), counting
`i` from `newDeck.length - 1` down to `1`; `j = rand i % (i+1)` models
`Math.floor(Math.random() * (i + 1))`. -/
def shuffleGo {α : Type} (rand : Nat → Nat) : Nat → List α → List α
  | 0, l => l
  | i + 1, l => shuffleGo rand i (listSwap l (i + 1) (rand (i + 1) % (i + 2)))

/-- `shuffleDeck` from `src/utils.ts`. -/
def shuffleDeck {α : Type} (rand : Nat → Nat) (deck : List α) : List α :=
  shuffleGo rand (deck.length - 1) deck

/-- `isValidMove` from `src/utils.ts` (lines 39-67). -/
def isValidMove (card : CardModel) (topCard : Option CardModel)
    (activeSuit : Suit) (attackStack : Int) : Bool :=
  match topCard with
  | none => false
  | some top =>
    if attackStack > 0 then decide (card.rank = Rank.two)
    else if card.rank = Rank.jack then true
    else if card.suit = activeSuit then true
    else if card.rank = top.rank then true
    else false

/-- `order` inside `getNextPlayer` (`src/utils.ts`). -/
def playerOrder : List PlayerID :=
  [PlayerID.south, PlayerID.west, PlayerID.north, PlayerID.east]

/-- `getNextPlayer` from `src/utils.ts`: one step clockwise, two when
`skip` (Ace). -/
def getNextPlayer (current : PlayerID) (skip : Bool := false) : PlayerID :=
  let idx := playerOrder.findIdx (fun p => decide (p = current))
  let steps := if skip then 2 else 1
  playerOrder.getD ((idx + steps) % 4) PlayerID.south

/-- `getPlayerName` from `src/utils.ts`. -/
def getPlayerName : PlayerID → String
  | PlayerID.south => "You"
  | PlayerID.west => "West AI"
  | PlayerID.north => "North AI"
  | PlayerID.east => "East AI"

/-- The string a `Suit` interpolates to in template literals (`${suit}`). -/
def suitStr : Suit → String
  | Suit.hearts => "hearts"
  | Suit.diamonds => "diamonds"
  | Suit.clubs => "clubs"
  | Suit.spades => "spades"

/-- The string a `Rank` interpolates to in template literals (`${rank}`). -/
def rankStr : Rank → String
  | Rank.two => "2" | Rank.three => "3" | Rank.four => "4" | Rank.five => "5"
  | Rank.six => "6" | Rank.seven => "7" | Rank.eight => "8" | Rank.nine => "9"
  | Rank.ten => "10" | Rank.jack => "J" | Rank.queen => "Q" | Rank.king => "K"
  | Rank.ace => "A"

/-- The `Record<PlayerID, CardModel[]>` of hands (`src/App.tsx` line 222). -/
structure Hands where
  south : List CardModel
  west : List CardModel
  north : List CardModel
  east : List CardModel
deriving DecidableEq, Repr

/-- Read one player's hand out of the record. -/
def handsGet (h : Hands) : PlayerID → List CardModel
  | PlayerID.south => h.south
  | PlayerID.west => h.west
  | PlayerID.north => h.north
  | PlayerID.east => h.east

/-- Replace one player's hand in the record (the spread updates
`{ ...prev, [pid]: newHand }`). -/
def handsSet (h : Hands) : PlayerID → List CardModel → Hands
  | PlayerID.south, l => { h with south := l }
  | PlayerID.west, l => { h with west := l }
  | PlayerID.north, l => { h with north := l }
  | PlayerID.east, l => { h with east := l }

/-- The game-relevant component state of `App` (`src/App.tsx` lines 219-241).
`attackStack` is a JS number, modelled as `Int`. -/
structure GameState where
  deck : List CardModel
  discardPile : List CardModel
  hands : Hands
  currentTurn : PlayerID
  activeSuit : Suit
  winner : Option PlayerID
  isSuitSelectionOpen : Bool
  gameLog : List String
  isDealing : Bool
  attackStack : Int
deriving DecidableEq, Repr

/-- `addLog` from `src/App.tsx` (lines 252-258): append, then `shift()` the
oldest entry off the front when the log exceeds 50 entries. -/
def addLog (log : List String) (msg : String) : List String :=
  let newLog := log ++ [msg]
  if newLog.length > 50 then newLog.tail else newLog

/-- `reshuffleDiscard` from `src/App.tsx` (lines 298-305): keep the top
discard card aside and shuffle the rest into a new deck.  (Its
`addLog("Deck reshuffled from discard pile.")` side effect is emitted by
`performDraw` below; at most one reshuffle can occur per draw sequence, so the
resulting log is identical.) -/
def reshuffleDiscard (rand : Nat → Nat) (currentDiscard : List CardModel) :
    Option (List CardModel × CardModel) :=
  if currentDiscard.length ≤ 1 then none
  else
    match currentDiscard.getLast? with
    | some topCard => some (shuffleDeck rand currentDiscard.dropLast, topCard)
    | none => none

/-- Result record of `drawCardForPlayerLogic` (`src/App.tsx` line 307-326). -/
structure DrawRes where
  card : Option CardModel
  newDeck : List CardModel
  newDiscard : List CardModel
  reshuffled : Bool
deriving DecidableEq, Repr

/-- `drawCardForPlayerLogic` from `src/App.tsx` (lines 307-326). -/
def drawCardForPlayerLogic (rand : Nat → Nat) (currentDeck currentDiscard : List CardModel) :
    DrawRes :=
  let d := currentDeck
  let dp := currentDiscard
  if d.length = 0 then
    match reshuffleDiscard rand dp with
    | none => { card := none, newDeck := d, newDiscard := dp, reshuffled := false }
    | some res =>
      let d := res.1
      let dp := [res.2]
      if d.length = 0 then { card := none, newDeck := d, newDiscard := dp, reshuffled := true }
      else { card := d.getLast?, newDeck := d.dropLast, newDiscard := dp, reshuffled := true }
  else { card := d.getLast?, newDeck := d.dropLast, newDiscard := dp, reshuffled := false }

/-- The `for(let i=0; i<count; i++)` loop of `performDraw`
(`src/App.tsx` lines 554-566), threading deck, discard, the accumulated
`drawnCards` and the `didReshuffle` flag; a `null` card breaks the loop. -/
def drawLoop (rand : Nat → Nat) :
    Nat → List CardModel → List CardModel → List CardModel → Bool →
    List CardModel × List CardModel × List CardModel × Bool
  | 0, d, dp, drawn, didR => (d, dp, drawn, didR)
  | n + 1, d, dp, drawn, didR =>
    let res := drawCardForPlayerLogic rand d dp
    let dp' := if res.reshuffled then res.newDiscard else dp
    let didR' := if res.reshuffled then true else didR
    match res.card with
    | some c => drawLoop rand n res.newDeck dp' (drawn ++ [c]) didR'
    | none => (res.newDeck, dp', drawn, didR')

/-- One round of the dealing `setInterval` in `startDeal`
(`src/App.tsx` lines 346-372): pop a card off the end of the deck and push it
onto `players[dealIndex % 4]`'s hand, `n` times. -/
def dealLoop : Nat → Nat → List CardModel → Hands → List CardModel × Hands
  | 0, _, deck, hands => (deck, hands)
  | n + 1, dealIndex, deck, hands =>
    let target := playerOrder.getD (dealIndex % 4) PlayerID.south
    let newHands :=
      match deck.getLast? with
      | some card => handsSet hands target (handsGet hands target ++ [card])
      | none => hands
    dealLoop n (dealIndex + 1) deck.dropLast newHands

/-- `finishDealing` from `src/App.tsx` (lines 375-400), applied to the state
`startDeal` left behind (winner cleared, log cleared, attack stack 0): flip
one card to start the discard pile, set the active suit from it, start an
attack stack of 2 when it is a 2, and give the turn to south. -/
def finishDealing (deck : List CardModel) (hands : Hands) : GameState :=
  match deck.getLast? with
  | some startCard =>
    { deck := deck.dropLast
      discardPile := [startCard]
      hands := hands
      currentTurn := PlayerID.south
      activeSuit := startCard.suit
      winner := none
      isSuitSelectionOpen := false
      gameLog := addLog []
        (if startCard.rank = Rank.two then
          "Game starts with a 2! First player must play 2 or draw 2."
        else
          "Game Started. Top card: " ++ rankStr startCard.rank ++ " of " ++
            suitStr startCard.suit)
      isDealing := false
      attackStack := if startCard.rank = Rank.two then 2 else 0 }
  | none =>
    { deck := deck.dropLast
      discardPile := []
      hands := hands
      currentTurn := PlayerID.south
      activeSuit := Suit.spades
      winner := none
      isSuitSelectionOpen := false
      gameLog := []
      isDealing := false
      attackStack := 0 }

/-- The full deal (`startDeal` + `finishDealing`, `src/App.tsx` lines
330-400): shuffle a fresh 52-card deck, deal `HAND_SIZE * 4 = 32` cards
round-robin, then flip the start card. -/
def initState (rand : Nat → Nat) : GameState :=
  let fullDeck := shuffleDeck rand createDeck
  let p := dealLoop 32 0 fullDeck ⟨[], [], [], []⟩
  finishDealing p.1 p.2

/-- `advanceTurn` from `src/App.tsx` (lines 441-468): compute the next player
(two steps on an Ace), add 2 to the attack stack on a 2. -/
def advanceTurn (s : GameState) (playedCard : Option CardModel)
    (currentPlayer : PlayerID) : GameState :=
  match playedCard with
  | some c =>
    if c.rank = Rank.ace then
      { s with
        gameLog := addLog s.gameLog
          (getPlayerName currentPlayer ++ " played Ace! Next player skipped.")
        currentTurn := getNextPlayer currentPlayer true }
    else if c.rank = Rank.two then
      { s with
        attackStack := s.attackStack + 2
        currentTurn := getNextPlayer currentPlayer false }
    else
      { s with currentTurn := getNextPlayer currentPlayer false }
  | none => { s with currentTurn := getNextPlayer currentPlayer false }

/-- The AI's Jack suit choice inside `executePlay` (`src/App.tsx` lines
502-509): the first suit (in hearts, diamonds, clubs, spades order) with the
strictly greatest count in the remaining hand; the running max starts at -1 so
the first suit is always taken initially. -/
def aiBestSuit (hand : List CardModel) : Suit :=
  (SUITS.foldl
    (fun acc st =>
      let cnt := (hand.filter (fun c => decide (c.suit = st))).length
      if (cnt : Int) > acc.2 then (st, (cnt : Int)) else acc)
    (Suit.hearts, (-1 : Int))).1

/-- `executePlay` from `src/App.tsx` (lines 470-522): move the card from the
hand to the discard pile, declare the winner immediately when the hand
empties, otherwise resolve Jack suit selection (human: open the picker; AI:
pick the most frequent suit) or a normal play, then advance the turn. -/
def executePlay (s : GameState) (card : CardModel) (pid : PlayerID) : GameState :=
  let newHand := (handsGet s.hands pid).filter (fun c => c.id != card.id)
  let s1 := { s with
    hands := handsSet s.hands pid newHand
    discardPile := s.discardPile ++ [card] }
  if newHand = [] then { s1 with winner := some pid }
  else if card.rank = Rank.jack then
    if pid = PlayerID.south then { s1 with isSuitSelectionOpen := true }
    else
      let bestSuit := aiBestSuit newHand
      let s2 := { s1 with
        activeSuit := bestSuit
        gameLog := addLog s1.gameLog
          (getPlayerName pid ++ " played Jack and chose " ++ suitStr bestSuit ++ ".") }
      advanceTurn s2 (some card) pid
  else
    let s2 := { s1 with
      activeSuit := card.suit
      gameLog := addLog s1.gameLog
        (getPlayerName pid ++ " played " ++ rankStr card.rank ++ " of " ++
          suitStr card.suit ++ ".") }
    advanceTurn s2 (some card) pid

/-- `performDraw` from `src/App.tsx` (lines 544-596): draw `count` cards
(stopping early when the supply is exhausted), commit deck/discard/hand, log,
reset the attack stack after an attack draw, and advance the turn. -/
def performDraw (rand : Nat → Nat) (s : GameState) (pid : PlayerID) (count : Nat) :
    GameState :=
  let r := drawLoop rand count s.deck s.discardPile [] false
  let d' := r.1
  let dp' := r.2.1
  let drawn := r.2.2.1
  let didReshuffle := r.2.2.2
  let s1 := { s with
    discardPile := if didReshuffle then dp' else s.discardPile
    deck := d'
    hands := handsSet s.hands pid (handsGet s.hands pid ++ drawn)
    gameLog :=
      if didReshuffle then addLog s.gameLog "Deck reshuffled from discard pile."
      else s.gameLog }
  let s2 :=
    if s.attackStack > 0 then
      { s1 with
        gameLog := addLog s1.gameLog
          (getPlayerName pid ++ " drew " ++ toString drawn.length ++
            " cards (Attack Penalty).")
        attackStack := 0 }
    else
      { s1 with gameLog := addLog s1.gameLog (getPlayerName pid ++ " drew a card.") }
  advanceTurn s2 none pid

/-- `handleCardClick` from `src/App.tsx` (lines 526-542), with the card given
by its index in south's rendered hand (the click handlers are attached to
`hands.south.map`, so the clicked card is always a member of the hand).  The
animation/tutorial/menu guards are presentation-only and omitted. -/
def handleCardClick (s : GameState) (i : Nat) : GameState :=
  if s.currentTurn = PlayerID.south ∧ s.winner = none ∧ s.isSuitSelectionOpen = false then
    match (handsGet s.hands PlayerID.south).get? i with
    | some card =>
      match s.discardPile.getLast? with
      | some topCard =>
        if isValidMove card (some topCard) s.activeSuit s.attackStack then
          executePlay s card PlayerID.south
        else s
      | none => s
    | none => s
  else s

/-- `handleDeckClick` from `src/App.tsx` (lines 598-604): under attack draw
the whole stack, otherwise draw one. -/
def handleDeckClick (rand : Nat → Nat) (s : GameState) : GameState :=
  if s.currentTurn = PlayerID.south ∧ s.winner = none ∧ s.isSuitSelectionOpen = false then
    performDraw rand s PlayerID.south
      (if s.attackStack > 0 then s.attackStack.toNat else 1)
  else s

/-- `handleSuitSelect` from `src/App.tsx` (lines 606-613).  The guard models
the render condition of the suit buttons (line 848: they exist only while
`isSuitSelectionOpen`).  The pseudo-card `{ rank: 'J', suit }` the code
passes to `advanceTurn` has no id. -/
def handleSuitSelect (s : GameState) (suit : Suit) : GameState :=
  if s.isSuitSelectionOpen then
    let s1 := { s with
      activeSuit := suit
      isSuitSelectionOpen := false
      gameLog := addLog s.gameLog ("You changed suit to " ++ suitStr suit ++ ".") }
    advanceTurn s1 (some { id := "", suit := suit, rank := Rank.jack }) PlayerID.south
  else s

/-- The AI's card choice inside `performAITurn` (`src/App.tsx` lines 630-646),
as a function of the already-computed legal moves.  Returns `none` only when
`validMoves` is empty (in the code `choice` is then never used). -/
def aiChoose (validMoves : List CardModel) (activeSuit : Suit) (topCard : CardModel)
    (attackStack : Int) : Option CardModel :=
  let choice : Option CardModel :=
    if attackStack > 0 then validMoves.head?
    else
      let nonJacks := validMoves.filter (fun c => decide (c.rank ≠ Rank.jack))
      if nonJacks.length > 0 then
        match nonJacks.find? (fun c => decide (c.suit = activeSuit)) with
        | some c => some c
        | none =>
          match nonJacks.find? (fun c => decide (c.rank = topCard.rank)) with
          | some c => some c
          | none => nonJacks.head?
      else validMoves.head?
  match choice with
  | some c => some c
  | none => validMoves.head?

/-- `performAITurn` from `src/App.tsx` (lines 616-672), the guard being the
enclosing effect's early return (line 617; the animation/tutorial flags are
presentation-only): play the chosen legal move if one exists, otherwise draw
the owed amount. -/
def performAITurn (rand : Nat → Nat) (s : GameState) : GameState :=
  if s.currentTurn = PlayerID.south ∨ s.winner ≠ none ∨ s.isDealing then s
  else
    let pid := s.currentTurn
    let hand := handsGet s.hands pid
    match s.discardPile.getLast? with
    | none => s
    | some topCard =>
      let validMoves :=
        hand.filter (fun c => isValidMove c (some topCard) s.activeSuit s.attackStack)
      if validMoves.length > 0 then
        match aiChoose validMoves s.activeSuit topCard s.attackStack with
        | some choice => executePlay s choice pid
        | none => s
      else
        performDraw rand s pid (if s.attackStack > 0 then s.attackStack.toNat else 1)

/-- One engine operation: a human card click, a human deck click, a human suit
selection, or an AI turn.  Each step draws its own fresh randomness. -/
inductive Step : GameState → GameState → Prop
  | play (s : GameState) (i : Nat) : Step s (handleCardClick s i)
  | deckClick (s : GameState) (rand : Nat → Nat) : Step s (handleDeckClick rand s)
  | suitSelect (s : GameState) (suit : Suit) : Step s (handleSuitSelect s suit)
  | ai (s : GameState) (rand : Nat → Nat) : Step s (performAITurn rand s)

/-- States reachable after some deal through any sequence of operations. -/
inductive Reachable : GameState → Prop
  | init (rand : Nat → Nat) : Reachable (initState rand)
  | step {s s' : GameState} : Reachable s → Step s s' → Reachable s'

/-- The concatenation of the four hands. -/
def handsCards (h : Hands) : List CardModel :=
  h.south ++ h.west ++ h.north ++ h.east

/-- All cards on the table: deck, the four hands, discard pile. -/
def allCards (s : GameState) : List CardModel :=
  s.deck ++ handsCards s.hands ++ s.discardPile

/-- The inductive invariant of reachable states: the table always holds the
52 created cards (as a multiset), the attack stack is a non-negative even
integer, the suit picker is closed once a winner exists, and the suit picker
can only be open on south's turn. -/
def Inv (s : GameState) : Prop :=
  (allCards s).Perm createDeck ∧
  0 ≤ s.attackStack ∧ (2 : Int) ∣ s.attackStack ∧
  (s.winner ≠ none → s.isSuitSelectionOpen = false) ∧
  (s.isSuitSelectionOpen = true → s.currentTurn = PlayerID.south)

/-- Reference predicate for claim C1, written from the spec sentences
(§4.2 Move Legality Oracle), not from the code. -/
def validMoveSpec (card : CardModel) (topCard : Option CardModel)
    (activeSuit : Suit) (attackStack : Int) : Prop :=
  match topCard with
  | none => False
  | some top =>
    if attackStack > 0 then card.rank = Rank.two
    else card.rank = Rank.jack ∨ card.suit = activeSuit ∨ card.rank = top.rank

/-- Reference decision policy for claim C8, written from the claim's words
("first a card matching the active suit, else a card matching the top card's
rank, else any legal move, falling back to the full legal-move set's first
element; when attackStack > 0 it selects the first legal move found"), not
from the code. -/
def aiChooseSpec (validMoves : List CardModel) (activeSuit : Suit) (topCard : CardModel)
    (attackStack : Int) : Option CardModel :=
  if attackStack > 0 then validMoves.head?
  else
    match validMoves.find? (fun c => decide (c.suit = activeSuit)) with
    | some c => some c
    | none =>
      match validMoves.find? (fun c => decide (c.rank = topCard.rank)) with
      | some c => some c
      | none => validMoves.head?

/-- The amended reference policy for claim C8: the suit/rank priorities are
applied among the NON-JACK legal moves (first non-Jack matching the active
suit, else first non-Jack matching the top card's rank, else the first
non-Jack); the first legal move is taken when every legal move is a Jack, and
also when under attack.  Formulated by searching the full legal-move list with
combined predicates, independently of the code's filter-then-search shape. -/
def aiChooseAmendedSpec (validMoves : List CardModel) (activeSuit : Suit)
    (topCard : CardModel) (attackStack : Int) : Option CardModel :=
  if attackStack > 0 then validMoves.head?
  else
    match validMoves.find? (fun c => decide (c.rank ≠ Rank.jack ∧ c.suit = activeSuit)) with
    | some c => some c
    | none =>
      match validMoves.find? (fun c => decide (c.rank ≠ Rank.jack ∧ c.rank = topCard.rank)) with
      | some c => some c
      | none =>
        match validMoves.find? (fun c => decide (c.rank ≠ Rank.jack)) with
        | some c => some c
        | none => validMoves.head?

/-- A fixed random source for concrete runs (every drawn index 0). -/
def r0 : Nat → Nat := fun _ => 0

/-- A concrete game driver: south always clicks the deck, the other players
take their AI turns; each step is one engine operation. -/
def stepFn (s : GameState) : GameState :=
  if s.currentTurn = PlayerID.south then handleDeckClick r0 s else performAITurn r0 s

/-- A concrete finished game: 33 driver steps from the `r0` deal (north wins). -/
def sWin : GameState := stepFn^[33] (initState r0)

/-- Concrete cards for counterexamples and witnesses. -/
def cardJH : CardModel := { id := "x-jack-hearts", suit := Suit.hearts, rank := Rank.jack }

def card5H : CardModel := { id := "x-five-hearts", suit := Suit.hearts, rank := Rank.five }

def card7S : CardModel := { id := "x-seven-spades", suit := Suit.spades, rank := Rank.seven }

def card9D : CardModel := { id := "x-nine-diamonds", suit := Suit.diamonds, rank := Rank.nine }

def card3C : CardModel := { id := "x-three-clubs", suit := Suit.clubs, rank := Rank.three }

/-- A 50-entry log of pairwise-distinct entries. -/
def exLog : List String := (List.range 50).map (fun n => "entry " ++ toString n)

/-- A concrete state whose log is full (50 entries) and whose suit picker is
open, about to process a suit-select operation. -/
def exState : GameState :=
  { deck := [card3C]
    discardPile := [card7S]
    hands := { south := [cardJH], west := [card5H], north := [card9D], east := [] }
    currentTurn := PlayerID.south
    activeSuit := Suit.spades
    winner := none
    isSuitSelectionOpen := true
    gameLog := exLog
    isDealing := false
    attackStack := 0 }

/-- A concrete state in which south holds exactly one Jack. -/
def jackLastState : GameState :=
  { deck := [card3C]
    discardPile := [card7S]
    hands := { south := [cardJH], west := [card5H], north := [card9D], east := [card9D] }
    currentTurn := PlayerID.south
    activeSuit := Suit.spades
    winner := none
    isSuitSelectionOpen := false
    gameLog := []
    isDealing := false
    attackStack := 0 }

/-- C1: `isValidMove` coincides with the reference predicate: with no top card
the result is false; under attack (`attackStack > 0`) a card is legal exactly
when its rank is 2; otherwise a Jack is always legal and any other card is
legal exactly when its suit equals the active suit or its rank equals the top
card's rank. -/
theorem c1_isValidMove_matches_spec (card : CardModel) (topCard : Option CardModel)
    (activeSuit : Suit) (attackStack : Int) :
    isValidMove card topCard activeSuit attackStack = true ↔
      validMoveSpec card topCard activeSuit attackStack := by
  cases topCard with
  | none => simp [isValidMove, validMoveSpec]
  | some top =>
    by_cases h : attackStack > 0
    · simp [isValidMove, validMoveSpec, h]
    · by_cases hj : card.rank = Rank.jack
      · simp [isValidMove, validMoveSpec, h, hj]
      · by_cases hs : card.suit = activeSuit
        · simp [isValidMove, validMoveSpec, h, hj, hs]
        · by_cases hr : card.rank = top.rank <;>
            simp [isValidMove, validMoveSpec, h, hj, hs, hr]


/-! ### Permutation facts about the shuffle -/

theorem set_get?_eq : ∀ (l : List CardModel) (i : Nat) (a : CardModel),
    l.get? i = some a → l.set i a = l
  | [], _, _, h => by simp at h
  | x :: xs, 0, a, h => by
    simp only [List.get?] at h
    injection h with h
    simp [h]
  | x :: xs, i + 1, a, h => by
    simp only [List.get?] at h
    simp [List.set, set_get?_eq xs i a h]

theorem perm_cons_set : ∀ (l : List CardModel) (m : Nat) (a b : CardModel),
    l.get? m = some b → List.Perm (b :: l.set m a) (a :: l)
  | [], _, _, _, h => by simp at h
  | x :: xs, 0, a, b, h => by
    simp only [List.get?] at h
    injection h with h
    simp only [List.set]
    rw [h]
    exact List.Perm.swap a b xs
  | x :: xs, m + 1, a, b, h => by
    simp only [List.get?] at h
    have ih := perm_cons_set xs m a b h
    show List.Perm (b :: x :: xs.set m a) (a :: x :: xs)
    exact ((List.Perm.swap x b _).trans (ih.cons x)).trans (List.Perm.swap a x xs)

theorem listSwap_perm (l : List CardModel) (i j : Nat) :
    List.Perm (listSwap l i j) l := by
  unfold listSwap
  cases hi : l.get? i with
  | none => exact List.Perm.refl l
  | some a =>
    cases hj : l.get? j with
    | none => exact List.Perm.refl l
    | some b =>
      show List.Perm ((l.set i b).set j a) l
      by_cases hij : i = j
      · subst hij
        have hab : a = b := by rw [hi] at hj; injection hj
        subst hab
        rw [List.set_set, set_get?_eq l i a hi]
      · have h1 : (l.set i b).get? j = some b := by
          rw [List.get?_set_ne _ _ hij, hj]
        have p1 := perm_cons_set (l.set i b) j a b h1
        have p2 := perm_cons_set l i b a hi
        exact (p1.trans p2).cons_inv

/-! ### Multiset bookkeeping helpers -/

theorem coe_append_eq (l1 l2 : List CardModel) :
    ((l1 ++ l2 : List CardModel) : Multiset CardModel) = (l1 : Multiset CardModel) + l2 :=
  (Multiset.coe_add l1 l2).symm

theorem coe_of_perm {l1 l2 : List CardModel} (h : List.Perm l1 l2) :
    (l1 : Multiset CardModel) = (l2 : Multiset CardModel) :=
  Multiset.coe_eq_coe.mpr h

theorem handsGet_set_same (h : Hands) (pid : PlayerID) (l : List CardModel) :
    handsGet (handsSet h pid l) pid = l := by
  cases pid <;> rfl

theorem handsCards_set (h : Hands) (pid : PlayerID) (l : List CardModel) :
    (handsCards (handsSet h pid l) : Multiset CardModel) + (handsGet h pid : Multiset CardModel) =
      (handsCards h : Multiset CardModel) + (l : Multiset CardModel) := by
  cases pid <;>
    simp only [handsCards, handsSet, handsGet, ← Multiset.coe_add] <;> abel

theorem allCards_multiset (s : GameState) :
    ((allCards s : List CardModel) : Multiset CardModel) =
      (s.deck : Multiset CardModel) + (handsCards s.hands : Multiset CardModel) +
        (s.discardPile : Multiset CardModel) := by
  simp only [allCards, ← Multiset.coe_add]

theorem getLast?_decomp {l : List CardModel} {c : CardModel} (h : l.getLast? = some c) :
    l.dropLast ++ [c] = l :=
  List.dropLast_append_getLast? c (by simpa using h)

/-- Removing a card (by id) from a hand whose ids are distinct, with the card
put back on top, is a permutation of the hand. -/
theorem cons_filter_ne_perm :
    ∀ (l : List CardModel) (c : CardModel), c ∈ l →
      ((l.map (fun x => x.id)).Nodup) →
      List.Perm (c :: l.filter (fun x => x.id != c.id)) l := by
  intro l
  induction l with
  | nil => intro c hc; simp at hc
  | cons x xs ih =>
    intro c hc hnd
    simp only [List.map_cons, List.nodup_cons, List.mem_map] at hnd
    obtain ⟨hxid, hnds⟩ := hnd
    rcases List.mem_cons.mp hc with hcx | hcxs
    · subst hcx
      have hfx : (fun y : CardModel => y.id != c.id) c = false := by simp
      have hfilter : xs.filter (fun y : CardModel => y.id != c.id) = xs := by
        apply List.filter_eq_self.mpr
        intro y hy
        simp only [bne_iff_ne, ne_eq, decide_eq_true_eq]
        intro hid
        exact hxid ⟨y, hy, hid⟩
      simp only [List.filter_cons, hfx, if_neg, Bool.false_eq_true, not_false_iff, hfilter]
      exact List.Perm.refl _
    · have hxc : x.id ≠ c.id := by
        intro hid
        exact hxid ⟨c, hcxs, hid.symm⟩
      have hfx : (fun y : CardModel => y.id != c.id) x = true := by
        simpa using hxc
      simp only [List.filter_cons, hfx, if_pos]
      exact (List.Perm.swap x c _).trans ((ih c hcxs hnds).cons x)

theorem shuffleGo_perm (rand : Nat → Nat) :
    ∀ (n : Nat) (l : List CardModel), List.Perm (shuffleGo rand n l) l
  | 0, l => List.Perm.refl l
  | n + 1, l =>
    (shuffleGo_perm rand n _).trans (listSwap_perm l (n + 1) (rand (n + 1) % (n + 2)))

theorem shuffleDeck_perm (rand : Nat → Nat) (deck : List CardModel) :
    List.Perm (shuffleDeck rand deck) deck :=
  shuffleGo_perm rand (deck.length - 1) deck

/-! ### Field bookkeeping for the state transformers -/

theorem advanceTurn_deck (s : GameState) (c : Option CardModel) (p : PlayerID) :
    (advanceTurn s c p).deck = s.deck := by
  cases c with
  | none => rfl
  | some c => simp only [advanceTurn]; split_ifs <;> rfl

theorem advanceTurn_discard (s : GameState) (c : Option CardModel) (p : PlayerID) :
    (advanceTurn s c p).discardPile = s.discardPile := by
  cases c with
  | none => rfl
  | some c => simp only [advanceTurn]; split_ifs <;> rfl

theorem advanceTurn_hands (s : GameState) (c : Option CardModel) (p : PlayerID) :
    (advanceTurn s c p).hands = s.hands := by
  cases c with
  | none => rfl
  | some c => simp only [advanceTurn]; split_ifs <;> rfl

theorem advanceTurn_winner (s : GameState) (c : Option CardModel) (p : PlayerID) :
    (advanceTurn s c p).winner = s.winner := by
  cases c with
  | none => rfl
  | some c => simp only [advanceTurn]; split_ifs <;> rfl

theorem advanceTurn_open (s : GameState) (c : Option CardModel) (p : PlayerID) :
    (advanceTurn s c p).isSuitSelectionOpen = s.isSuitSelectionOpen := by
  cases c with
  | none => rfl
  | some c => simp only [advanceTurn]; split_ifs <;> rfl

theorem advanceTurn_isDealing (s : GameState) (c : Option CardModel) (p : PlayerID) :
    (advanceTurn s c p).isDealing = s.isDealing := by
  cases c with
  | none => rfl
  | some c => simp only [advanceTurn]; split_ifs <;> rfl

theorem advanceTurn_attack_none (s : GameState) (p : PlayerID) :
    (advanceTurn s none p).attackStack = s.attackStack := rfl

theorem advanceTurn_attack_some (s : GameState) (c : CardModel) (p : PlayerID) :
    (advanceTurn s (some c) p).attackStack =
      if c.rank = Rank.two then s.attackStack + 2 else s.attackStack := by
  simp only [advanceTurn]
  split_ifs with h1 h2 <;> first | rfl | (exfalso; simp_all)

theorem executePlay_deck (s : GameState) (card : CardModel) (pid : PlayerID) :
    (executePlay s card pid).deck = s.deck := by
  simp only [executePlay]
  split_ifs <;> simp [advanceTurn_deck]

theorem executePlay_discard (s : GameState) (card : CardModel) (pid : PlayerID) :
    (executePlay s card pid).discardPile = s.discardPile ++ [card] := by
  simp only [executePlay]
  split_ifs <;> simp [advanceTurn_discard]

theorem executePlay_hands (s : GameState) (card : CardModel) (pid : PlayerID) :
    (executePlay s card pid).hands =
      handsSet s.hands pid ((handsGet s.hands pid).filter (fun c => c.id != card.id)) := by
  simp only [executePlay]
  split_ifs <;> simp [advanceTurn_hands]

theorem executePlay_attack (s : GameState) (card : CardModel) (pid : PlayerID) :
    (executePlay s card pid).attackStack = s.attackStack ∨
      (executePlay s card pid).attackStack = s.attackStack + 2 := by
  simp only [executePlay]
  split_ifs with h1 h2 h3
  · exact Or.inl rfl
  · exact Or.inl rfl
  · rw [advanceTurn_attack_some]
    split_ifs with h4
    · exact Or.inr rfl
    · exact Or.inl rfl
  · rw [advanceTurn_attack_some]
    split_ifs with h4
    · exact Or.inr rfl
    · exact Or.inl rfl

/-! ### Conservation of cards by the draw/reshuffle engine -/

theorem drawCard_noreshuffle (rand : Nat → Nat) (d dp : List CardModel)
    (h : (drawCardForPlayerLogic rand d dp).reshuffled = false) :
    (drawCardForPlayerLogic rand d dp).newDiscard = dp := by
  simp only [drawCardForPlayerLogic] at h ⊢
  split_ifs at h ⊢ with h1
  · cases hres : reshuffleDiscard rand dp with
    | none => simp [hres]
    | some res =>
      simp only [hres] at h ⊢
      split_ifs at h ⊢
  · rfl

theorem drawCard_conserve (rand : Nat → Nat) (d dp : List CardModel) :
    ((drawCardForPlayerLogic rand d dp).newDeck : Multiset CardModel) +
      ((drawCardForPlayerLogic rand d dp).newDiscard : Multiset CardModel) +
      ((drawCardForPlayerLogic rand d dp).card.toList : Multiset CardModel) =
      (d : Multiset CardModel) + (dp : Multiset CardModel) := by
  simp only [drawCardForPlayerLogic]
  split_ifs with h1
  · cases hres : reshuffleDiscard rand dp with
    | none => simp
    | some res =>
      have hd : d = [] := List.length_eq_zero.mp h1
      have hres2 : res.1 = shuffleDeck rand dp.dropLast ∧ dp.getLast? = some res.2 := by
        simp only [reshuffleDiscard] at hres
        split_ifs at hres
        cases hgl : dp.getLast? with
        | none => rw [hgl] at hres; cases hres
        | some t =>
          rw [hgl] at hres
          injection hres with hres
          exact ⟨(congrArg Prod.fst hres).symm, congrArg (fun p => some p.2) hres⟩
      obtain ⟨hsh, hgl⟩ := hres2
      have hperm : List.Perm res.1 dp.dropLast := hsh ▸ shuffleDeck_perm rand dp.dropLast
      have hdp : dp.dropLast ++ [res.2] = dp := getLast?_decomp hgl
      subst hd
      dsimp only
      split_ifs with h2
      · have hnil : res.1 = [] := List.length_eq_zero.mp h2
        have hdrop : dp.dropLast = [] := (hnil ▸ hperm).symm.eq_nil
        simp only [hnil, Option.toList]
        calc (↑([] : List CardModel) + ↑[res.2] + ↑([] : List CardModel) : Multiset CardModel)
            = ↑(dp.dropLast ++ [res.2]) := by rw [hdrop]; simp
          _ = ↑dp := by rw [hdp]
          _ = ↑([] : List CardModel) + ↑dp := by simp
      · have hne : res.1 ≠ [] := fun hnil => h2 (by simp [hnil])
        cases hlast : res.1.getLast? with
        | none => exact absurd (List.getLast?_eq_none_iff.mp hlast) hne
        | some x =>
          have hx : res.1.dropLast ++ [x] = res.1 := getLast?_decomp hlast
          simp only [Option.toList]
          calc (↑res.1.dropLast + ↑[res.2] + ↑[x] : Multiset CardModel)
              = ↑(res.1.dropLast ++ [x]) + ↑[res.2] := by rw [coe_append_eq]; abel
            _ = ↑res.1 + ↑[res.2] := by rw [hx]
            _ = ↑dp.dropLast + ↑[res.2] := by rw [coe_of_perm hperm]
            _ = ↑(dp.dropLast ++ [res.2]) := by rw [coe_append_eq]
            _ = ↑dp := by rw [hdp]
            _ = ↑([] : List CardModel) + ↑dp := by simp
  · cases hlast : d.getLast? with
    | none => exact absurd (by simp [List.getLast?_eq_none_iff.mp hlast]) h1
    | some x =>
      have hx : d.dropLast ++ [x] = d := getLast?_decomp hlast
      simp only [Option.toList]
      calc (↑d.dropLast + ↑dp + ↑[x] : Multiset CardModel)
          = ↑(d.dropLast ++ [x]) + ↑dp := by rw [coe_append_eq]; abel
        _ = ↑d + ↑dp := by rw [hx]

theorem drawLoop_spec (rand : Nat → Nat) :
    ∀ (n : Nat) (d dp drawn : List CardModel) (didR : Bool),
      ((((drawLoop rand n d dp drawn didR).1 : Multiset CardModel) +
          ((drawLoop rand n d dp drawn didR).2.1 : Multiset CardModel) +
          ((drawLoop rand n d dp drawn didR).2.2.1 : Multiset CardModel)) =
        (d : Multiset CardModel) + (dp : Multiset CardModel) + (drawn : Multiset CardModel)) ∧
      ((drawLoop rand n d dp drawn didR).2.2.2 = false →
        (drawLoop rand n d dp drawn didR).2.1 = dp ∧ didR = false) := by
  intro n
  induction n with
  | zero => exact fun d dp drawn didR => ⟨rfl, fun h => ⟨rfl, h⟩⟩
  | succ n ih =>
    intro d dp drawn didR
    have hcons := drawCard_conserve rand d dp
    simp only [drawLoop]
    cases hres : (drawCardForPlayerLogic rand d dp).reshuffled with
    | true =>
      cases hcard : (drawCardForPlayerLogic rand d dp).card with
      | none =>
        rw [hcard] at hcons
        simp only [Option.toList] at hcons
        simp only [eq_self_iff_true, if_true]
        constructor
        · calc ((drawCardForPlayerLogic rand d dp).newDeck : Multiset CardModel) +
              ((drawCardForPlayerLogic rand d dp).newDiscard : Multiset CardModel) +
              (drawn : Multiset CardModel)
              = ((drawCardForPlayerLogic rand d dp).newDeck : Multiset CardModel) +
                ((drawCardForPlayerLogic rand d dp).newDiscard : Multiset CardModel) +
                ↑([] : List CardModel) + ↑drawn := by simp
            _ = ↑d + ↑dp + ↑drawn := by rw [hcons]
        · intro h
          cases h
      | some c =>
        rw [hcard] at hcons
        simp only [Option.toList] at hcons
        simp only [eq_self_iff_true, if_true]
        obtain ⟨ih1, ih2⟩ := ih (drawCardForPlayerLogic rand d dp).newDeck
          (drawCardForPlayerLogic rand d dp).newDiscard (drawn ++ [c]) true
        constructor
        · rw [ih1, coe_append_eq]
          calc ((drawCardForPlayerLogic rand d dp).newDeck : Multiset CardModel) +
              ((drawCardForPlayerLogic rand d dp).newDiscard : Multiset CardModel) +
              ((drawn : Multiset CardModel) + (↑[c] : Multiset CardModel))
              = ((drawCardForPlayerLogic rand d dp).newDeck : Multiset CardModel) +
                ((drawCardForPlayerLogic rand d dp).newDiscard : Multiset CardModel) +
                ↑[c] + ↑drawn := by abel
            _ = ↑d + ↑dp + ↑drawn := by rw [hcons]
        · intro h
          exact absurd (ih2 h).2 (by simp)
    | false =>
      have hdp : (drawCardForPlayerLogic rand d dp).newDiscard = dp :=
        drawCard_noreshuffle rand d dp hres
      cases hcard : (drawCardForPlayerLogic rand d dp).card with
      | none =>
        rw [hcard] at hcons
        rw [hdp] at hcons
        simp only [Option.toList] at hcons
        simp only [Bool.false_eq_true, if_false]
        constructor
        · calc ((drawCardForPlayerLogic rand d dp).newDeck : Multiset CardModel) +
              (dp : Multiset CardModel) + (drawn : Multiset CardModel)
              = ((drawCardForPlayerLogic rand d dp).newDeck : Multiset CardModel) +
                ↑dp + ↑([] : List CardModel) + ↑drawn := by simp
            _ = ↑d + ↑dp + ↑drawn := by rw [hcons]
        · intro h
          exact ⟨trivial, h⟩
      | some c =>
        rw [hcard] at hcons
        rw [hdp] at hcons
        simp only [Option.toList] at hcons
        simp only [Bool.false_eq_true, if_false]
        obtain ⟨ih1, ih2⟩ := ih (drawCardForPlayerLogic rand d dp).newDeck
          dp (drawn ++ [c]) didR
        constructor
        · rw [ih1, coe_append_eq]
          calc ((drawCardForPlayerLogic rand d dp).newDeck : Multiset CardModel) +
              (dp : Multiset CardModel) +
              ((drawn : Multiset CardModel) + (↑[c] : Multiset CardModel))
              = ((drawCardForPlayerLogic rand d dp).newDeck : Multiset CardModel) +
                ↑dp + ↑[c] + ↑drawn := by abel
            _ = ↑d + ↑dp + ↑drawn := by rw [hcons]
        · exact ih2

theorem performDraw_fields (rand : Nat → Nat) (s : GameState) (pid : PlayerID) (count : Nat) :
    (performDraw rand s pid count).deck =
      (drawLoop rand count s.deck s.discardPile [] false).1 ∧
    (performDraw rand s pid count).discardPile =
      (if (drawLoop rand count s.deck s.discardPile [] false).2.2.2 then
        (drawLoop rand count s.deck s.discardPile [] false).2.1
      else s.discardPile) ∧
    (performDraw rand s pid count).hands =
      handsSet s.hands pid
        (handsGet s.hands pid ++ (drawLoop rand count s.deck s.discardPile [] false).2.2.1) ∧
    (performDraw rand s pid count).winner = s.winner ∧
    (performDraw rand s pid count).isSuitSelectionOpen = s.isSuitSelectionOpen ∧
    (performDraw rand s pid count).isDealing = s.isDealing ∧
    ((performDraw rand s pid count).attackStack = 0 ∨
      (performDraw rand s pid count).attackStack = s.attackStack) := by
  simp only [performDraw]
  refine ⟨?_, ?_, ?_, ?_, ?_, ?_, ?_⟩
  · rw [advanceTurn_deck]; split_ifs <;> rfl
  · rw [advanceTurn_discard]; split_ifs <;> rfl
  · rw [advanceTurn_hands]; split_ifs <;> rfl
  · rw [advanceTurn_winner]; split_ifs <;> rfl
  · rw [advanceTurn_open]; split_ifs <;> rfl
  · rw [advanceTurn_isDealing]; split_ifs <;> rfl
  · rw [advanceTurn_attack_none]
    split_ifs <;> simp

theorem performDraw_cards (rand : Nat → Nat) (s : GameState) (pid : PlayerID) (count : Nat) :
    List.Perm (allCards (performDraw rand s pid count)) (allCards s) := by
  apply Multiset.coe_eq_coe.mp
  obtain ⟨hdk, hdc, hh, -, -, -, -⟩ := performDraw_fields rand s pid count
  rw [allCards_multiset, allCards_multiset, hdk, hdc, hh]
  obtain ⟨hcons, hdid⟩ := drawLoop_spec rand count s.deck s.discardPile [] false
  simp only [Multiset.coe_nil, add_zero] at hcons
  have hkey : (handsCards (handsSet s.hands pid
      (handsGet s.hands pid ++ (drawLoop rand count s.deck s.discardPile [] false).2.2.1)) :
        Multiset CardModel) =
      (handsCards s.hands : Multiset CardModel) +
        ((drawLoop rand count s.deck s.discardPile [] false).2.2.1 : Multiset CardModel) := by
    have h := handsCards_set s.hands pid
      (handsGet s.hands pid ++ (drawLoop rand count s.deck s.discardPile [] false).2.2.1)
    have h2 : (handsCards (handsSet s.hands pid
        (handsGet s.hands pid ++ (drawLoop rand count s.deck s.discardPile [] false).2.2.1)) :
          Multiset CardModel) + (handsGet s.hands pid : Multiset CardModel) =
        ((handsCards s.hands : Multiset CardModel) +
          ((drawLoop rand count s.deck s.discardPile [] false).2.2.1 : Multiset CardModel)) +
          (handsGet s.hands pid : Multiset CardModel) := by
      rw [h, coe_append_eq]; abel
    exact add_right_cancel h2
  rw [hkey]
  cases hdidR : (drawLoop rand count s.deck s.discardPile [] false).2.2.2 with
  | true =>
    simp only [eq_self_iff_true, if_true]
    calc ((drawLoop rand count s.deck s.discardPile [] false).1 : Multiset CardModel) +
        ((handsCards s.hands : Multiset CardModel) +
          ((drawLoop rand count s.deck s.discardPile [] false).2.2.1 : Multiset CardModel)) +
        ((drawLoop rand count s.deck s.discardPile [] false).2.1 : Multiset CardModel)
        = (((drawLoop rand count s.deck s.discardPile [] false).1 : Multiset CardModel) +
            ((drawLoop rand count s.deck s.discardPile [] false).2.1 : Multiset CardModel) +
            ((drawLoop rand count s.deck s.discardPile [] false).2.2.1 : Multiset CardModel)) +
            (handsCards s.hands : Multiset CardModel) := by abel
      _ = ((s.deck : Multiset CardModel) + (s.discardPile : Multiset CardModel)) +
            (handsCards s.hands : Multiset CardModel) := by rw [hcons]
      _ = (s.deck : Multiset CardModel) + (handsCards s.hands : Multiset CardModel) +
            (s.discardPile : Multiset CardModel) := by abel
  | false =>
    have hdp := (hdid hdidR).1
    simp only [Bool.false_eq_true, if_false]
    rw [hdp] at hcons
    calc ((drawLoop rand count s.deck s.discardPile [] false).1 : Multiset CardModel) +
        ((handsCards s.hands : Multiset CardModel) +
          ((drawLoop rand count s.deck s.discardPile [] false).2.2.1 : Multiset CardModel)) +
        (s.discardPile : Multiset CardModel)
        = (((drawLoop rand count s.deck s.discardPile [] false).1 : Multiset CardModel) +
            (s.discardPile : Multiset CardModel) +
            ((drawLoop rand count s.deck s.discardPile [] false).2.2.1 : Multiset CardModel)) +
            (handsCards s.hands : Multiset CardModel) := by abel
      _ = ((s.deck : Multiset CardModel) + (s.discardPile : Multiset CardModel)) +
            (handsCards s.hands : Multiset CardModel) := by rw [hcons]
      _ = (s.deck : Multiset CardModel) + (handsCards s.hands : Multiset CardModel) +
            (s.discardPile : Multiset CardModel) := by abel

theorem executePlay_cards (s : GameState) (card : CardModel) (pid : PlayerID)
    (hmem : card ∈ handsGet s.hands pid)
    (hnd : ((handsGet s.hands pid).map (fun x => x.id)).Nodup) :
    List.Perm (allCards (executePlay s card pid)) (allCards s) := by
  apply Multiset.coe_eq_coe.mp
  rw [allCards_multiset, allCards_multiset, executePlay_deck, executePlay_discard,
    executePlay_hands]
  have hperm := cons_filter_ne_perm (handsGet s.hands pid) card hmem hnd
  have hhand : (handsGet s.hands pid : Multiset CardModel) =
      ((handsGet s.hands pid).filter (fun x => x.id != card.id) : Multiset CardModel) +
        ([card] : List CardModel) := by
    have h := coe_of_perm hperm
    rw [← Multiset.cons_coe] at h
    rw [← h, ← Multiset.singleton_add, Multiset.coe_singleton]
    exact add_comm _ _
  have h := handsCards_set s.hands pid
    ((handsGet s.hands pid).filter (fun x => x.id != card.id))
  rw [hhand] at h
  have h2 : (handsCards (handsSet s.hands pid
      ((handsGet s.hands pid).filter (fun x => x.id != card.id))) : Multiset CardModel) +
      (([card] : List CardModel) : Multiset CardModel) +
      ((handsGet s.hands pid).filter (fun x => x.id != card.id) : Multiset CardModel) =
      (handsCards s.hands : Multiset CardModel) +
      ((handsGet s.hands pid).filter (fun x => x.id != card.id) : Multiset CardModel) := by
    rw [← h]; abel
  have hkey := add_right_cancel h2
  rw [coe_append_eq]
  calc (s.deck : Multiset CardModel) +
      (handsCards (handsSet s.hands pid
        ((handsGet s.hands pid).filter (fun x => x.id != card.id))) : Multiset CardModel) +
      ((s.discardPile : Multiset CardModel) + (([card] : List CardModel) : Multiset CardModel))
      = (s.deck : Multiset CardModel) +
        ((handsCards (handsSet s.hands pid
          ((handsGet s.hands pid).filter (fun x => x.id != card.id))) : Multiset CardModel) +
          (([card] : List CardModel) : Multiset CardModel)) +
        (s.discardPile : Multiset CardModel) := by abel
    _ = (s.deck : Multiset CardModel) + (handsCards s.hands : Multiset CardModel) +
        (s.discardPile : Multiset CardModel) := by rw [hkey]

/-! ### Membership and uniqueness plumbing -/

theorem nodup_hand_of_allCards (s : GameState)
    (h : ((allCards s).map (fun c => c.id)).Nodup) (pid : PlayerID) :
    ((handsGet s.hands pid).map (fun c => c.id)).Nodup := by
  simp only [allCards, handsCards, List.map_append, List.nodup_append] at h
  cases pid <;> simp only [handsGet] <;> tauto

theorem head?_mem {l : List CardModel} {a : CardModel} (h : l.head? = some a) : a ∈ l := by
  cases l with
  | nil => cases h
  | cons x xs =>
    injection h with h
    exact h ▸ List.mem_cons_self x xs

theorem aiChoose_mem (vm : List CardModel) (a : Suit) (t : CardModel) (k : Int)
    (c : CardModel) (h : aiChoose vm a t k = some c) : c ∈ vm := by
  simp only [aiChoose] at h
  split at h <;> rename_i heq
  · injection h with h
    subst h
    split_ifs at heq with hk hnj
    · exact head?_mem heq
    · split at heq <;> rename_i hfind
      · injection heq with heq
        subst heq
        exact List.mem_of_mem_filter (List.mem_of_find?_eq_some hfind)
      · split at heq <;> rename_i hfind2
        · injection heq with heq
          subst heq
          exact List.mem_of_mem_filter (List.mem_of_find?_eq_some hfind2)
        · exact List.mem_of_mem_filter (head?_mem heq)
    · exact head?_mem heq
  · exact head?_mem h

/-! ### The deal establishes the invariant -/

theorem handsCards_set_append (h : Hands) (pid : PlayerID) (l : List CardModel) :
    (handsCards (handsSet h pid (handsGet h pid ++ l)) : Multiset CardModel) =
      (handsCards h : Multiset CardModel) + (l : Multiset CardModel) := by
  have hh := handsCards_set h pid (handsGet h pid ++ l)
  have h2 : (handsCards (handsSet h pid (handsGet h pid ++ l)) : Multiset CardModel) +
      (handsGet h pid : Multiset CardModel) =
      ((handsCards h : Multiset CardModel) + (l : Multiset CardModel)) +
        (handsGet h pid : Multiset CardModel) := by
    rw [hh, coe_append_eq]; abel
  exact add_right_cancel h2

theorem dealLoop_conserve :
    ∀ (n di : Nat) (deck : List CardModel) (hands : Hands),
      ((dealLoop n di deck hands).1 : Multiset CardModel) +
        (handsCards (dealLoop n di deck hands).2 : Multiset CardModel) =
        (deck : Multiset CardModel) + (handsCards hands : Multiset CardModel) := by
  intro n
  induction n with
  | zero => intro di deck hands; rfl
  | succ n ih =>
    intro di deck hands
    simp only [dealLoop]
    cases hgl : deck.getLast? with
    | none =>
      have hd : deck = [] := List.getLast?_eq_none_iff.mp hgl
      subst hd
      exact ih (di + 1) [].dropLast hands
    | some c =>
      have hdp : deck.dropLast ++ [c] = deck := getLast?_decomp hgl
      rw [ih, handsCards_set_append]
      calc (deck.dropLast : Multiset CardModel) +
          ((handsCards hands : Multiset CardModel) + (([c] : List CardModel) : Multiset CardModel))
          = ((deck.dropLast ++ [c] : List CardModel) : Multiset CardModel) +
            (handsCards hands : Multiset CardModel) := by rw [coe_append_eq]; abel
        _ = (deck : Multiset CardModel) + (handsCards hands : Multiset CardModel) := by rw [hdp]

set_option maxHeartbeats 2000000 in
theorem initState_inv (rand : Nat → Nat) : Inv (initState rand) := by
  have hcons := dealLoop_conserve 32 0 (shuffleDeck rand createDeck) ⟨[], [], [], []⟩
  have hsh : List.Perm (shuffleDeck rand createDeck) createDeck :=
    shuffleDeck_perm rand createDeck
  unfold initState
  dsimp only
  generalize hdl : dealLoop 32 0 (shuffleDeck rand createDeck) ⟨[], [], [], []⟩ = r
  rw [hdl] at hcons
  have hfull : ((r.1 : Multiset CardModel) + (handsCards r.2 : Multiset CardModel)) =
      (createDeck : Multiset CardModel) := by
    rw [hcons, coe_of_perm hsh]
    simp [handsCards]
  unfold finishDealing
  cases hgl : r.1.getLast? with
  | none =>
    have hd : r.1 = [] := List.getLast?_eq_none_iff.mp hgl
    refine ⟨?_, by norm_num, by norm_num, fun h => rfl, fun h => by cases h⟩
    apply Multiset.coe_eq_coe.mp
    rw [allCards_multiset]
    dsimp only
    rw [hd] at hfull ⊢
    calc (([] : List CardModel).dropLast : Multiset CardModel) +
        (handsCards r.2 : Multiset CardModel) + (([] : List CardModel) : Multiset CardModel)
        = (([] : List CardModel) : Multiset CardModel) +
          (handsCards r.2 : Multiset CardModel) := by simp
      _ = (createDeck : Multiset CardModel) := hfull
  | some c =>
    have hdp : r.1.dropLast ++ [c] = r.1 := getLast?_decomp hgl
    refine ⟨?_, ?_, ?_, fun h => rfl, fun h => by cases h⟩
    · apply Multiset.coe_eq_coe.mp
      rw [allCards_multiset]
      dsimp only
      calc (r.1.dropLast : Multiset CardModel) + (handsCards r.2 : Multiset CardModel) +
          (([c] : List CardModel) : Multiset CardModel)
          = ((r.1.dropLast ++ [c] : List CardModel) : Multiset CardModel) +
            (handsCards r.2 : Multiset CardModel) := by rw [coe_append_eq]; abel
        _ = (r.1 : Multiset CardModel) + (handsCards r.2 : Multiset CardModel) := by rw [hdp]
        _ = (createDeck : Multiset CardModel) := hfull
    · dsimp only
      split_ifs <;> norm_num
    · dsimp only
      split_ifs <;> norm_num

/-! ### The invariant is preserved by every operation -/

theorem advanceTurn_allCards (x : GameState) (c : Option CardModel) (p : PlayerID) :
    allCards (advanceTurn x c p) = allCards x := by
  simp only [allCards, advanceTurn_deck, advanceTurn_hands, advanceTurn_discard]

theorem executePlay_winOpenTurn (s : GameState) (card : CardModel) (pid : PlayerID) :
    ((executePlay s card pid).winner = some pid ∧
      (executePlay s card pid).isSuitSelectionOpen = s.isSuitSelectionOpen ∧
      (executePlay s card pid).currentTurn = s.currentTurn) ∨
    ((executePlay s card pid).winner = s.winner ∧
      (executePlay s card pid).isSuitSelectionOpen = true ∧ pid = PlayerID.south ∧
      (executePlay s card pid).currentTurn = s.currentTurn) ∨
    ((executePlay s card pid).winner = s.winner ∧
      (executePlay s card pid).isSuitSelectionOpen = s.isSuitSelectionOpen) := by
  simp only [executePlay]
  split_ifs with h1 h2 h3
  · exact Or.inl ⟨rfl, rfl, rfl⟩
  · exact Or.inr (Or.inl ⟨rfl, rfl, h3, rfl⟩)
  · refine Or.inr (Or.inr ⟨?_, ?_⟩) <;>
      simp [advanceTurn_winner, advanceTurn_open]
  · refine Or.inr (Or.inr ⟨?_, ?_⟩) <;>
      simp [advanceTurn_winner, advanceTurn_open]

theorem createDeck_id_nodup : ((createDeck.map (fun c => c.id))).Nodup := by decide

theorem inv_executePlay (s : GameState) (hInv : Inv s) (card : CardModel) (pid : PlayerID)
    (hmem : card ∈ handsGet s.hands pid)
    (hwin : s.winner = none) (hopen : s.isSuitSelectionOpen = false)
    (hturn : pid = PlayerID.south → s.currentTurn = PlayerID.south) :
    Inv (executePlay s card pid) := by
  obtain ⟨hcards, hnn, hdvd, hCw, hDo⟩ := hInv
  have hmap := hcards.map (fun c => c.id)
  have hnd_all := hmap.symm.nodup createDeck_id_nodup
  have hnd := nodup_hand_of_allCards s hnd_all pid
  have hperm := (executePlay_cards s card pid hmem hnd).trans hcards
  have hatk := executePlay_attack s card pid
  refine ⟨hperm, ?_, ?_, ?_, ?_⟩
  · rcases hatk with h | h <;> rw [h] <;> omega
  · rcases hatk with h | h <;> rw [h] <;> omega
  · rcases executePlay_winOpenTurn s card pid with ⟨hw, ho, -⟩ | ⟨hw, ho, hp, ht⟩ | ⟨hw, ho⟩
    · intro _; rw [ho, hopen]
    · intro hne; rw [hw, hwin] at hne; exact absurd rfl hne
    · intro hne; rw [hw, hwin] at hne; exact absurd rfl hne
  · rcases executePlay_winOpenTurn s card pid with ⟨hw, ho, -⟩ | ⟨hw, ho, hp, ht⟩ | ⟨hw, ho⟩
    · intro hob; rw [ho, hopen] at hob; cases hob
    · intro _; rw [ht]; exact hturn hp
    · intro hob; rw [ho, hopen] at hob; cases hob

theorem inv_performDraw (rand : Nat → Nat) (s : GameState) (pid : PlayerID) (count : Nat)
    (hInv : Inv s) (hwin : s.winner = none) (hopen : s.isSuitSelectionOpen = false) :
    Inv (performDraw rand s pid count) := by
  obtain ⟨hcards, hnn, hdvd, hCw, hDo⟩ := hInv
  obtain ⟨-, -, -, hw, ho, -, hatk⟩ := performDraw_fields rand s pid count
  refine ⟨(performDraw_cards rand s pid count).trans hcards, ?_, ?_, ?_, ?_⟩
  · rcases hatk with h | h <;> rw [h] <;> omega
  · rcases hatk with h | h <;> rw [h] <;> omega
  · intro hne; rw [hw, hwin] at hne; exact absurd rfl hne
  · intro hob; rw [ho, hopen] at hob; cases hob

theorem inv_handleCardClick (s : GameState) (hInv : Inv s) (i : Nat) :
    Inv (handleCardClick s i) := by
  simp only [handleCardClick]
  split_ifs with hg
  · obtain ⟨hturn, hwin, hopen⟩ := hg
    cases hget : (handsGet s.hands PlayerID.south).get? i with
    | none => exact hInv
    | some card =>
      cases hgl : s.discardPile.getLast? with
      | none => exact hInv
      | some top =>
        dsimp only
        split_ifs with hv
        · exact inv_executePlay s hInv card PlayerID.south (List.get?_mem hget) hwin hopen
            (fun _ => hturn)
        · exact hInv
  · exact hInv

theorem inv_handleDeckClick (rand : Nat → Nat) (s : GameState) (hInv : Inv s) :
    Inv (handleDeckClick rand s) := by
  simp only [handleDeckClick]
  split_ifs with hg h2
  · obtain ⟨hturn, hwin, hopen⟩ := hg
    exact inv_performDraw rand s PlayerID.south _ hInv hwin hopen
  · obtain ⟨hturn, hwin, hopen⟩ := hg
    exact inv_performDraw rand s PlayerID.south _ hInv hwin hopen
  · exact hInv

theorem inv_handleSuitSelect (s : GameState) (hInv : Inv s) (suit : Suit) :
    Inv (handleSuitSelect s suit) := by
  simp only [handleSuitSelect]
  split_ifs with hg
  · obtain ⟨hcards, hnn, hdvd, hCw, hDo⟩ := hInv
    refine ⟨?_, ?_, ?_, ?_, ?_⟩
    · rw [advanceTurn_allCards]
      exact hcards
    · rw [advanceTurn_attack_some]
      dsimp only
      rw [if_neg (by decide : ¬Rank.jack = Rank.two)]
      exact hnn
    · rw [advanceTurn_attack_some]
      dsimp only
      rw [if_neg (by decide : ¬Rank.jack = Rank.two)]
      exact hdvd
    · intro _
      rw [advanceTurn_open]
    · intro hob
      rw [advanceTurn_open] at hob
      simp at hob
  · exact hInv

theorem inv_performAITurn (rand : Nat → Nat) (s : GameState) (hInv : Inv s) :
    Inv (performAITurn rand s) := by
  simp only [performAITurn]
  split_ifs with hg hatk
  · exact hInv
  all_goals
    push_neg at hg
    obtain ⟨hturn, hwin, hdeal⟩ := hg
    have hopen : s.isSuitSelectionOpen = false := by
      cases hob : s.isSuitSelectionOpen
      · rfl
      · exact absurd (hInv.2.2.2.2 hob) hturn
    cases hgl : s.discardPile.getLast? with
    | none => exact hInv
    | some top =>
      dsimp only
      split_ifs with hlen
      · cases hch : aiChoose
          ((handsGet s.hands s.currentTurn).filter
            (fun c => isValidMove c (some top) s.activeSuit s.attackStack))
          s.activeSuit top s.attackStack with
        | none => exact hInv
        | some choice =>
          have hmem : choice ∈ handsGet s.hands s.currentTurn :=
            List.mem_of_mem_filter (aiChoose_mem _ _ _ _ _ hch)
          exact inv_executePlay s hInv choice s.currentTurn hmem hwin hopen
            (fun h => absurd h hturn)
      · exact inv_performDraw rand s s.currentTurn _ hInv hwin hopen

theorem reachable_inv {s : GameState} (h : Reachable s) : Inv s := by
  induction h with
  | init rand => exact initState_inv rand
  | step h1 h2 ih =>
    cases h2 with
    | play i => exact inv_handleCardClick _ ih i
    | deckClick rand => exact inv_handleDeckClick rand _ ih
    | suitSelect suit => exact inv_handleSuitSelect _ ih suit
    | ai rand => exact inv_performAITurn rand _ ih

/-! ### Claim theorems -/

/-- C2: in every game state reachable after the deal, deck, hands and discard
pile together hold exactly 52 cards with pairwise distinct ids: no operation
duplicates or loses a card. -/
theorem c2_deck_integrity (s : GameState) (h : Reachable s) :
    (allCards s).length = 52 ∧ ((allCards s).map (fun c => c.id)).Nodup := by
  have hperm := (reachable_inv h).1
  constructor
  · rw [hperm.length_eq]
    rfl
  · exact ((hperm.map (fun c => c.id)).symm).nodup createDeck_id_nodup

theorem c2_deck_integrity_witness :
    (allCards (initState r0)).length = 52 ∧
      ((allCards (initState r0)).map (fun c => c.id)).Nodup :=
  c2_deck_integrity (initState r0) (Reachable.init r0)

/-- C7: in every reachable game state the attack stack is a non-negative even
integer; the deal starts it at 0 or 2, each 2-play adds 2 and an attack draw
resets it to 0, so no operation ever makes it negative or odd. -/
theorem c7_attack_stack_even (s : GameState) (h : Reachable s) :
    0 ≤ s.attackStack ∧ (2 : Int) ∣ s.attackStack :=
  ⟨(reachable_inv h).2.1, (reachable_inv h).2.2.1⟩

theorem c7_attack_stack_even_witness :
    0 ≤ (initState r0).attackStack ∧ (2 : Int) ∣ (initState r0).attackStack :=
  c7_attack_stack_even (initState r0) (Reachable.init r0)

/-- C3: playing a card that empties a hand sets the winner to that player in
the same operation, and once a winner is set every play, draw and suit-select
operation leaves the state completely unchanged. -/
theorem c3_win_immediacy (s : GameState) (h : Reachable s) :
    (∀ (card : CardModel) (pid : PlayerID),
      handsGet (executePlay s card pid).hands pid = [] →
        (executePlay s card pid).winner = some pid) ∧
    (∀ w, s.winner = some w →
      (∀ i, handleCardClick s i = s) ∧ (∀ rand, handleDeckClick rand s = s) ∧
        (∀ suit, handleSuitSelect s suit = s) ∧ (∀ rand, performAITurn rand s = s)) := by
  constructor
  · intro card pid hempty
    rw [executePlay_hands, handsGet_set_same] at hempty
    simp only [executePlay]
    rw [if_pos hempty]
  · intro w hw
    have hopen : s.isSuitSelectionOpen = false :=
      (reachable_inv h).2.2.2.1 (by rw [hw]; simp)
    refine ⟨?_, ?_, ?_, ?_⟩
    · intro i
      simp only [handleCardClick]
      rw [if_neg]
      rintro ⟨-, h2, -⟩
      rw [hw] at h2
      cases h2
    · intro rand
      simp only [handleDeckClick]
      rw [if_neg]
      rintro ⟨-, h2, -⟩
      rw [hw] at h2
      cases h2
    · intro suit
      simp only [handleSuitSelect]
      rw [if_neg]
      rw [hopen]
      simp
    · intro rand
      simp only [performAITurn]
      rw [if_pos]
      exact Or.inr (Or.inl (by rw [hw]; simp))

theorem stepFn_is_step (s : GameState) : Step s (stepFn s) := by
  unfold stepFn
  split_ifs
  · exact Step.deckClick s r0
  · exact Step.ai s r0

theorem reachable_stepFn_iter (n : Nat) : Reachable (stepFn^[n] (initState r0)) := by
  induction n with
  | zero => exact Reachable.init r0
  | succ n ih =>
    rw [Function.iterate_succ_apply']
    exact Reachable.step ih (stepFn_is_step _)

set_option maxRecDepth 200000 in
theorem c3_win_immediacy_witness :
    sWin.winner = some PlayerID.north ∧
      handleCardClick sWin 0 = sWin ∧ handleDeckClick r0 sWin = sWin ∧
      handleSuitSelect sWin Suit.hearts = sWin ∧ performAITurn r0 sWin = sWin := by
  have hr : Reachable sWin := reachable_stepFn_iter 33
  have hw : sWin.winner = some PlayerID.north := by decide
  obtain ⟨hplay, hdeck, hsuit, hai⟩ := (c3_win_immediacy sWin hr).2 PlayerID.north hw
  exact ⟨hw, hplay 0, hdeck r0, hsuit Suit.hearts, hai r0⟩

/-- C6: a player whose hand is exactly one Jack wins immediately by playing
it, with no attack pending: the winner is set at once, the suit picker is not
opened and no suit choice happens (the active suit is untouched). -/
theorem c6_jack_last_card (s : GameState) (card : CardModel) (pid : PlayerID)
    (hhand : handsGet s.hands pid = [card]) (hrank : card.rank = Rank.jack)
    (hattack : s.attackStack = 0) :
    (executePlay s card pid).winner = some pid ∧
      (executePlay s card pid).isSuitSelectionOpen = s.isSuitSelectionOpen ∧
      (executePlay s card pid).activeSuit = s.activeSuit := by
  have hempty : (handsGet s.hands pid).filter (fun c => c.id != card.id) = [] := by
    rw [hhand]
    simp
  simp only [executePlay]
  rw [if_pos hempty]
  exact ⟨rfl, rfl, rfl⟩

theorem c6_jack_last_card_witness :
    (executePlay jackLastState cardJH PlayerID.south).winner = some PlayerID.south ∧
      (executePlay jackLastState cardJH PlayerID.south).isSuitSelectionOpen =
        jackLastState.isSuitSelectionOpen ∧
      (executePlay jackLastState cardJH PlayerID.south).activeSuit =
        jackLastState.activeSuit :=
  c6_jack_last_card jackLastState cardJH PlayerID.south rfl rfl rfl

/-- C4: with an empty deck and more than one discard card, one draw sets the
top discard card aside, shuffles the remaining discard cards into the new
deck, produces the drawn card from that new deck, and resets the discard pile
to exactly the same top card, so the active suit/rank context is unaffected.
The permutation states that the new deck (with the drawn card back on top) is
exactly the shuffled remainder of the discard pile. -/
theorem c4_reshuffle_on_empty_deck (rand : Nat → Nat) (dp : List CardModel)
    (h : 1 < dp.length) :
    ∃ (c top : CardModel) (newDeck : List CardModel),
      dp.getLast? = some top ∧
      drawCardForPlayerLogic rand [] dp =
        { card := some c, newDeck := newDeck, newDiscard := [top], reshuffled := true } ∧
      List.Perm (newDeck ++ [c]) dp.dropLast := by
  cases hgl : dp.getLast? with
  | none =>
    have hnil := List.getLast?_eq_none_iff.mp hgl
    rw [hnil] at h
    simp at h
  | some top =>
    have hperm := shuffleDeck_perm rand dp.dropLast
    have hlen : dp.dropLast.length = dp.length - 1 := List.length_dropLast dp
    have hne : shuffleDeck rand dp.dropLast ≠ [] := by
      intro hnil
      have hl := hperm.length_eq
      rw [hnil, hlen] at hl
      simp at hl
      omega
    cases hsl : (shuffleDeck rand dp.dropLast).getLast? with
    | none => exact absurd (List.getLast?_eq_none_iff.mp hsl) hne
    | some c =>
      refine ⟨c, top, (shuffleDeck rand dp.dropLast).dropLast, rfl, ?_, ?_⟩
      · simp only [drawCardForPlayerLogic, reshuffleDiscard]
        rw [if_pos (show ([] : List CardModel).length = 0 from rfl), if_neg (by omega), hgl]
        dsimp only
        rw [if_neg (by simpa [List.length_eq_zero] using hne), hsl]
      · rw [getLast?_decomp hsl]
        exact hperm

theorem c4_reshuffle_on_empty_deck_witness :
    ∃ (c top : CardModel) (newDeck : List CardModel),
      [card5H, card7S].getLast? = some top ∧
      drawCardForPlayerLogic r0 [] [card5H, card7S] =
        { card := some c, newDeck := newDeck, newDiscard := [top], reshuffled := true } ∧
      List.Perm (newDeck ++ [c]) [card5H, card7S].dropLast :=
  c4_reshuffle_on_empty_deck r0 [card5H, card7S] (by decide)

/-- C5: with an empty deck and at most one discard card, the draw primitive
returns the defined "no card produced" result, leaving both piles unchanged,
and a draw of any number of cards stops immediately with nothing drawn, no
reshuffle, and both piles unchanged. -/
theorem c5_exhausted_draw_is_noop (rand : Nat → Nat) (dp : List CardModel)
    (h : dp.length ≤ 1) :
    drawCardForPlayerLogic rand [] dp =
      { card := none, newDeck := [], newDiscard := dp, reshuffled := false } ∧
    ∀ n, drawLoop rand n [] dp [] false = ([], dp, [], false) := by
  have h1 : drawCardForPlayerLogic rand [] dp =
      { card := none, newDeck := [], newDiscard := dp, reshuffled := false } := by
    simp only [drawCardForPlayerLogic, reshuffleDiscard]
    rw [if_pos (show ([] : List CardModel).length = 0 from rfl), if_pos h]
  refine ⟨h1, ?_⟩
  intro n
  cases n with
  | zero => rfl
  | succ n =>
    simp only [drawLoop, h1]
    simp

theorem c5_exhausted_draw_is_noop_witness :
    drawCardForPlayerLogic r0 [] [card7S] =
      { card := none, newDeck := [], newDiscard := [card7S], reshuffled := false } ∧
      drawLoop r0 3 [] [card7S] [] false = ([], [card7S], [], false) :=
  ⟨(c5_exhausted_draw_is_noop r0 [card7S] (by decide)).1,
   (c5_exhausted_draw_is_noop r0 [card7S] (by decide)).2 3⟩

/-- C9 counterexample: on a state whose log already holds 50 entries, a suit
select operation drops the oldest entry ("entry 0") from the log entirely, so
the log is not append-only as claimed. -/
theorem c9_log_counterexample :
    "entry 0" ∈ exState.gameLog ∧
      ¬("entry 0" ∈ (handleSuitSelect exState Suit.hearts).gameLog) := by decide

/-- C9 amended: the event log is append-only up to a 50-entry cap: an
operation appends its entry at the end and keeps every existing entry in
place while the log holds fewer than 50 entries; once it holds 50, the oldest
(first) entry is dropped and the rest shift down one position. -/
theorem c9_log_capped_append_only (l : List String) (m : String) :
    (l.length < 50 → addLog l m = l ++ [m]) ∧
    (50 ≤ l.length → addLog l m = l.tail ++ [m]) := by
  constructor
  · intro h
    simp only [addLog]
    rw [if_neg]
    simp only [List.length_append, List.length_cons, List.length_nil]
    omega
  · intro h
    have hne : l ≠ [] := by
      intro hnil
      rw [hnil] at h
      simp at h
    simp only [addLog]
    rw [if_pos]
    · cases l with
      | nil => exact absurd rfl hne
      | cons x xs => rfl
    · simp only [List.length_append, List.length_cons, List.length_nil]
      omega

theorem c9_log_capped_append_only_witness :
    addLog ["a"] "b" = ["a"] ++ ["b"] ∧ addLog exLog "b" = exLog.tail ++ ["b"] :=
  ⟨(c9_log_capped_append_only ["a"] "b").1 (by decide),
   (c9_log_capped_append_only exLog "b").2 (by decide)⟩

/-- C10: with no attack pending, the AI policy never selects a Jack when some
non-Jack legal move exists; a Jack is only chosen when every legal move in the
hand is a Jack. -/
theorem c10_ai_avoids_jack (validMoves : List CardModel) (activeSuit : Suit)
    (topCard : CardModel) (c j : CardModel) (hj : j ∈ validMoves)
    (hjr : j.rank ≠ Rank.jack)
    (hc : aiChoose validMoves activeSuit topCard 0 = some c) :
    c.rank ≠ Rank.jack := by
  have hjN : j ∈ validMoves.filter (fun y => decide (y.rank ≠ Rank.jack)) :=
    List.mem_filter.mpr ⟨hj, by simpa using hjr⟩
  have hne : validMoves.filter (fun y => decide (y.rank ≠ Rank.jack)) ≠ [] :=
    List.ne_nil_of_mem hjN
  have hlen : (validMoves.filter (fun y => decide (y.rank ≠ Rank.jack))).length > 0 :=
    List.length_pos.mpr hne
  simp only [aiChoose] at hc
  rw [if_neg (by norm_num), if_pos hlen] at hc
  have hcm : c ∈ validMoves.filter (fun y => decide (y.rank ≠ Rank.jack)) := by
    split at hc <;> rename_i heq
    · injection hc with hc
      subst hc
      split at heq <;> rename_i hf1
      · injection heq with heq
        subst heq
        exact List.mem_of_find?_eq_some hf1
      · split at heq <;> rename_i hf2
        · injection heq with heq
          subst heq
          exact List.mem_of_find?_eq_some hf2
        · exact head?_mem heq
    · exfalso
      split at heq <;> rename_i hf1
      · cases heq
      · split at heq <;> rename_i hf2
        · cases heq
        · exact hne (List.head?_eq_none_iff.mp heq)
  have hp := List.of_mem_filter hcm
  simpa using hp

theorem c10_ai_avoids_jack_witness :
    card5H.rank ≠ Rank.jack ∧
      aiChoose [cardJH, card5H] Suit.hearts card7S 0 = some card5H :=
  ⟨c10_ai_avoids_jack [cardJH, card5H] Suit.hearts card7S card5H card5H
      (by decide) (by decide) (by decide),
   by decide⟩

/-- C8 counterexample: with active suit hearts, top card 7 of spades and hand
legal moves [Jack of hearts, 5 of hearts], the spec policy ("first a card
matching the active suit") picks the Jack of hearts, but the code first
restricts to non-Jack moves and picks the 5 of hearts. -/
theorem c8_policy_counterexample :
    aiChoose [cardJH, card5H] Suit.hearts card7S 0 ≠
      aiChooseSpec [cardJH, card5H] Suit.hearts card7S 0 := by decide

theorem find?_filter_decide (l : List CardModel) (p q : CardModel → Prop)
    [DecidablePred p] [DecidablePred q] :
    (l.filter (fun c => decide (p c))).find? (fun c => decide (q c)) =
      l.find? (fun c => decide (p c ∧ q c)) := by
  induction l with
  | nil => rfl
  | cons x xs ih =>
    by_cases hp : p x <;> by_cases hq : q x <;>
      simp [List.filter_cons, List.find?_cons, hp, hq, ih]

/-- C8 amended: the AI picks by the stated priorities restricted to the
NON-JACK legal moves (first non-Jack matching the active suit, else first
non-Jack matching the top card's rank, else the first non-Jack); only when
every legal move is a Jack does it fall back to the legal-move list's first
element, and under attack it takes the first legal move. -/
theorem c8_policy_amended (validMoves : List CardModel) (activeSuit : Suit)
    (topCard : CardModel) (attackStack : Int) :
    aiChoose validMoves activeSuit topCard attackStack =
      aiChooseAmendedSpec validMoves activeSuit topCard attackStack := by
  simp only [aiChoose, aiChooseAmendedSpec]
  by_cases hk : attackStack > 0
  · rw [if_pos hk, if_pos hk]
    cases hh : validMoves.head? <;> rfl
  · rw [if_neg hk, if_neg hk]
    by_cases hnj : (validMoves.filter (fun c => decide (c.rank ≠ Rank.jack))).length > 0
    · rw [if_pos hnj]
      rw [find?_filter_decide validMoves (fun c => c.rank ≠ Rank.jack)
        (fun c => c.suit = activeSuit)]
      rw [find?_filter_decide validMoves (fun c => c.rank ≠ Rank.jack)
        (fun c => c.rank = topCard.rank)]
      rw [List.filter_head?]
      cases hg1 : validMoves.find? (fun c => decide (c.rank ≠ Rank.jack ∧ c.suit = activeSuit)) with
      | some c => rfl
      | none =>
        cases hg2 : validMoves.find?
            (fun c => decide (c.rank ≠ Rank.jack ∧ c.rank = topCard.rank)) with
        | some c => rfl
        | none =>
          cases hg3 : validMoves.find? (fun c => decide (c.rank ≠ Rank.jack)) with
          | some c => rfl
          | none => rfl
    · rw [if_neg hnj]
      have hnil : validMoves.filter (fun c => decide (c.rank ≠ Rank.jack)) = [] :=
        List.length_eq_zero.mp (by omega)
      have hall : ∀ x ∈ validMoves, x.rank = Rank.jack := by
        intro x hx
        by_contra hxx
        have hmem : x ∈ validMoves.filter (fun c => decide (c.rank ≠ Rank.jack)) :=
          List.mem_filter.mpr ⟨hx, by simpa using hxx⟩
        rw [hnil] at hmem
        cases hmem
      have hg1 : validMoves.find?
          (fun c => decide (c.rank ≠ Rank.jack ∧ c.suit = activeSuit)) = none := by
        apply List.find?_eq_none.mpr
        intro x hx
        simp [hall x hx]
      have hg2 : validMoves.find?
          (fun c => decide (c.rank ≠ Rank.jack ∧ c.rank = topCard.rank)) = none := by
        apply List.find?_eq_none.mpr
        intro x hx
        simp [hall x hx]
      have hg3 : validMoves.find? (fun c => decide (c.rank ≠ Rank.jack)) = none := by
        apply List.find?_eq_none.mpr
        intro x hx
        simp [hall x hx]
      rw [hg1, hg2, hg3]
      cases hh : validMoves.head? <;> rfl

end RussianFish
